import Mathlib

/-!
Shallow embedding of the meteor self-test harness module
(Matcher, Run, test registry and test runner), translated from the
JavaScript source. JavaScript strings are modelled as List Char; the
fibers Future primitive is an external collaborator and is modelled at
its interface: each resolution issued to a future is recorded, in order,
in a list of Resolution events, and the value a waiting caller observes
is the first resolution delivered.
-/

namespace Selftest

/-- Exit status field of a Run. In the source it is undefined until the
process terminates, null when the process failed rather than exited, and
an object carrying code and signal when it exited. -/
inductive ExitStatus
  | unset
  | failed
  | exited (code : Option Int) (signal : Option String)
deriving DecidableEq, Repr

/-- Details attached to a TestFailure: nothing, the captured output
(for no-match), or the expected code and actual status (for
wrong-exit-code). -/
inductive FailureDetails
  | noDetails
  | outputDetails (output : List Char)
  | exitDetails (expected : Int) (actual : ExitStatus)
deriving DecidableEq, Repr

/-- Exception representing a test failure: a reason tag plus details. -/
structure TestFailure where
  reason : String
  details : FailureDetails
deriving DecidableEq, Repr

/-- One resolution event delivered to a Future: either a value returned
to the waiter or a TestFailure thrown at it. -/
inductive Resolution
  | ret (value : List Char)
  | thr (failure : TestFailure)
deriving DecidableEq, Repr

/-- The value a caller blocked on the future observes: the first
resolution delivered to it. -/
def firstResolution (rs : List Resolution) : Option Resolution :=
  rs.head?

/-- A pending match request on a Matcher. In the source the three fields
matchPattern, matchStrict and matchFuture are always set and cleared
together, so they are bundled here; only the literal (string pattern)
branch of the matcher is modelled. -/
structure Request where
  pattern : List Char
  strict : Bool
deriving DecidableEq, Repr

/-- State of a Matcher: the unconsumed buffer, the total output seen so
far, the ended flag, and the pending request when one exists. -/
structure MatcherState where
  buf : List Char
  output : List Char
  ended : Bool
  pending : Option Request
deriving DecidableEq, Repr

/-- A fresh Matcher. -/
def Matcher.init : MatcherState :=
  ⟨[], [], false, none⟩

/-- Index of the earliest occurrence of pat as a contiguous sublist of
the buffer, as computed by the indexOf call in the source; none when the
pattern does not occur. -/
def firstOccur : List Char → List Char → Option Nat
  | pat, [] => if pat = [] then some 0 else none
  | pat, c :: rest =>
    if pat.isPrefixOf (c :: rest) then some 0
    else (firstOccur pat rest).map (· + 1)

/-- The tryMatch method. When a request is pending and the pattern
occurs at index i: under strict with i not zero a junk-before failure is
thrown at the future, and execution then falls through, so the buffer is
still sliced past the occurrence, the request is cleared and the future
is also sent a return resolution. When the pattern does not occur and
the matcher has ended, the request is cleared and no-match carrying the
total output is thrown at the future. Otherwise nothing happens. -/
def Matcher.tryMatch (s : MatcherState) : MatcherState × List Resolution :=
  match s.pending with
  | none => (s, [])
  | some req =>
    match firstOccur req.pattern s.buf with
    | some i =>
      let junk : List Resolution :=
        if req.strict = true ∧ i ≠ 0 then
          [.thr ⟨"junk-before", .noDetails⟩]
        else []
      ({ s with buf := s.buf.drop (i + req.pattern.length), pending := none },
       junk ++ [.ret req.pattern])
    | none =>
      if s.ended then
        ({ s with pending := none },
         [.thr ⟨"no-match", .outputDetails s.output⟩])
      else (s, [])

/-- The write method: append the data to buf and output, then try to
resolve the pending request. -/
def Matcher.writeData (s : MatcherState) (data : List Char) :
    MatcherState × List Resolution :=
  Matcher.tryMatch { s with buf := s.buf ++ data, output := s.output ++ data }

/-- The synchronous part of the match method: registering a second
request while one is pending throws a plain Error (a fatal programming
error, not a TestFailure), modelled by the error branch of Except;
otherwise the request is registered and tryMatch runs against the
current buffer. -/
def Matcher.matchReq (s : MatcherState) (pattern : List Char) (strict : Bool) :
    Except String (MatcherState × List Resolution) :=
  if s.pending.isSome then .error "already have a match pending?"
  else .ok (Matcher.tryMatch { s with pending := some ⟨pattern, strict⟩ })

/-- The end method: set the ended flag and try to resolve the pending
request. -/
def Matcher.endCall (s : MatcherState) : MatcherState × List Resolution :=
  Matcher.tryMatch { s with ended := true }

/-- The matchEmpty method: fails with junk-at-end when the buffer is
nonempty. -/
def Matcher.matchEmptyCheck (s : MatcherState) : Option TestFailure :=
  if 0 < s.buf.length then some ⟨"junk-at-end", .noDetails⟩ else none

/-- State of a Run (Process Session): accumulated argument list, whether
the child process has been spawned, the base timeout in seconds, the
accumulated extra timeout seconds, the two stream matchers, the exit
status, and the list of pending exit futures (null after exit, modelled
by none). Exit futures are identified by numbers. -/
structure RunState where
  args : List String
  started : Bool
  baseTimeout : Nat
  extraTime : Nat
  stdoutMatcher : MatcherState
  stderrMatcher : MatcherState
  exitStatus : ExitStatus
  exitFutures : Option (List Nat)
deriving DecidableEq, Repr

/-- A freshly constructed Run: baseTimeout is 1 second, extraTime 0,
fresh matchers, exit status unset, empty exit future list. -/
def Run.init : RunState :=
  ⟨[], false, 1, 0, Matcher.init, Matcher.init, .unset, some []⟩

/-- The waitSecs method: extend the timeout for the next operation. -/
def Run.waitSecs (s : RunState) (secs : Nat) : RunState :=
  { s with extraTime := s.extraTime + secs }

/-- Timeout bookkeeping of the match method: the effective timeout is
baseTimeout plus extraTime, and extraTime is reset to 0. Returns the
updated state and the timeout handed to the stdout matcher. -/
def Run.matchTimeout (s : RunState) : RunState × Nat :=
  ({ s with extraTime := 0 }, s.baseTimeout + s.extraTime)

/-- Timeout bookkeeping of the matchErr method, identical in the source
to that of match but delegating to the stderr matcher. -/
def Run.matchErrTimeout (s : RunState) : RunState × Nat :=
  ({ s with extraTime := 0 }, s.baseTimeout + s.extraTime)

/-- Timeout bookkeeping of the expectExit method when the exit status is
not yet known: the exit-wait timer is armed with baseTimeout plus
extraTime, and extraTime is reset to 0. -/
def Run.expectExitTimeout (s : RunState) : RunState × Nat :=
  ({ s with extraTime := 0 }, s.baseTimeout + s.extraTime)

/-- Timeout bookkeeping of the expectEnd method around its inner
expectExit call: expectEnd computes baseTimeout plus extraTime into a
local variable that is never used again, resets extraTime to 0, and then
calls expectExit, which arms its exit-wait timer from its own
recomputation over the now-reset accumulator. Returns the state after
both resets and the timer duration the inner exit wait actually arms. -/
def Run.expectEndExitTimeout (s : RunState) : RunState × Nat :=
  Run.expectExitTimeout { s with extraTime := 0 }

/-- Observable effects of one exit notification: the exit futures that
were resolved, and the resolutions delivered to the futures of the two
matchers by their endCall. -/
structure ExitEffect where
  resolvedWaiters : List Nat
  stdoutResolutions : List Resolution
  stderrResolutions : List Resolution
deriving DecidableEq, Repr

/-- The empty effect: nothing resolved. -/
def ExitEffect.empty : ExitEffect :=
  ⟨[], [], []⟩

/-- Body of the exited method once past its guard: record the terminal
status, drain and null out the exit future list, resolving each waiter,
and end both matchers. -/
def Run.exitedCore (s : RunState) (status : ExitStatus) : RunState × ExitEffect :=
  let mOut := Matcher.endCall s.stdoutMatcher
  let mErr := Matcher.endCall s.stderrMatcher
  ({ s with exitStatus := status, exitFutures := none,
            stdoutMatcher := mOut.1, stderrMatcher := mErr.1 },
   ⟨s.exitFutures.getD [], mOut.2, mErr.2⟩)

/-- The exited method: throws a plain Error when the exit status is
already set, otherwise runs the core transition. -/
def Run.exitedCall (s : RunState) (status : ExitStatus) :
    Except String (RunState × ExitEffect) :=
  if s.exitStatus = .unset then .ok (Run.exitedCore s status)
  else .error "already exited?"

/-- One close event from the child process. The source registers two
close handlers: the first calls exited with the code and signal if the
exit status is still unset, the second calls exited with null (failed)
if the exit status is still unset. Both run, in order, on every close
notification. -/
def Run.onCloseEvent (s : RunState) (code : Option Int) (sig : Option String) :
    RunState × ExitEffect :=
  let r1 :=
    if s.exitStatus = .unset then Run.exitedCore s (.exited code sig)
    else (s, ExitEffect.empty)
  let r2 :=
    if r1.1.exitStatus = .unset then Run.exitedCore r1.1 .failed
    else (r1.1, ExitEffect.empty)
  (r2.1,
   ⟨r1.2.resolvedWaiters ++ r2.2.resolvedWaiters,
    r1.2.stdoutResolutions ++ r2.2.stdoutResolutions,
    r1.2.stderrResolutions ++ r2.2.stderrResolutions⟩)

/-- The status checks of the expectExit method, performed once the wait
is over: a falsy exit status (unset or failed) raises spawn-failure;
otherwise, when an expected code is given and differs from the code
component of the status, wrong-exit-code is raised carrying the expected
code and the actual status. The signal component is never inspected. -/
def Run.expectExitCheck (st : ExitStatus) (code : Option Int) :
    Option TestFailure :=
  match st with
  | .exited c sig =>
    match code with
    | some k =>
      if c = some k then none
      else some ⟨"wrong-exit-code", .exitDetails k (.exited c sig)⟩
    | none => none
  | _ => some ⟨"spawn-failure", .noDetails⟩

/-- Outcome of executing one test body: normal return, a thrown
TestFailure, or a thrown exception of any other kind. -/
inductive TestOutcome
  | ok
  | fail (failure : TestFailure)
  | crash (msg : String)
deriving DecidableEq, Repr

/-- A registered test: name, originating file and its content hash as
recorded by define (null when no file was being loaded), and the body
outcome. -/
structure Test where
  name : String
  file : Option String
  fileHash : Option String
  f : TestOutcome
deriving DecidableEq, Repr

/-- Module-level registry state: the allTests list (null until discovery
initializes it) and the file currently being loaded together with its
hash (null outside an active load). -/
structure RegistryState where
  allTests : Option (List Test)
  fileBeingLoaded : Option String
  fileBeingLoadedHash : Option String
deriving DecidableEq, Repr

/-- The define function: pushes a new Test, tagged with the file
currently being loaded and its hash, onto allTests. There is no guard;
when allTests is still null (discovery has not run), the push throws a
TypeError, a fatal error modelled by the error branch. -/
def define (st : RegistryState) (name : String) (f : TestOutcome) :
    Except String RegistryState :=
  match st.allTests with
  | none => .error "TypeError: cannot push onto null allTests"
  | some ts =>
    .ok { st with
          allTests :=
            some (ts ++ [⟨name, st.fileBeingLoaded, st.fileBeingLoadedHash, f⟩]) }

/-- Lookup in an insertion-ordered string map, as property access on a
plain JavaScript object keyed by strings. -/
def mapLookup : List (String × String) → String → Option String
  | [], _ => none
  | (k, v) :: rest, key => if key = k then some v else mapLookup rest key

/-- Assignment on an insertion-ordered string map: replace the value at
an existing key, else append the binding. -/
def mapInsert : List (String × String) → String → String → List (String × String)
  | [], k, v => [(k, v)]
  | (k1, v1) :: rest, k, v =>
    if k1 = k then (k, v) :: rest else (k1, v1) :: mapInsert rest k v

/-- Deletion of a key from an insertion-ordered string map. -/
def mapErase : List (String × String) → String → List (String × String)
  | [], _ => []
  | (k1, v1) :: rest, k =>
    if k1 = k then mapErase rest k else (k1, v1) :: mapErase rest k

/-- Record a member in a set kept as a duplicate-free ordered list, as
setting a key of a JavaScript object used as a set. -/
def insertSet (l : List String) (a : String) : List String :=
  if a ∈ l then l else l ++ [a]

/-- The persisted pass state: a version number and the map from source
file to the content hash it last fully passed with. -/
structure TestState where
  version : Nat
  lastPassedHashes : List (String × String)
deriving DecidableEq, Repr

/-- Parsing and validation of the persisted state file: a missing file,
or one whose version is not 1, is replaced by a fresh state. -/
def loadTestState (stored : Option TestState) : TestState :=
  match stored with
  | some ts => if ts.version = 1 then ts else ⟨1, []⟩
  | none => ⟨1, []⟩

/-- A test as seen by the runner. Tests produced by discovery always
carry a concrete file name and content hash, so the runner model uses
plain strings for both. -/
structure RTest where
  name : String
  file : String
  fileHash : String
  f : TestOutcome
deriving DecidableEq, Repr

/-- Mutable state threaded through the per-test loop of runTests: the
pass state being updated, the failure count, the set of files that had a
failure, and the names of the tests executed so far. -/
structure LoopState where
  testState : TestState
  failureCount : Nat
  failuresInFile : List String
  executed : List String
deriving DecidableEq, Repr

/-- One iteration of the runTests loop: speculatively record the pass
hash for the file of the test, run the body, and classify the outcome.
A TestFailure is caught, counted, and marks the file as failed; any
other exception propagates, modelled by the error branch carrying the
message and the loop state at the point of the crash. -/
def runOne (ls : LoopState) (t : RTest) : Except (String × LoopState) LoopState :=
  let ts1 : TestState :=
    { ls.testState with
      lastPassedHashes := mapInsert ls.testState.lastPassedHashes t.file t.fileHash }
  let ls1 : LoopState :=
    { ls with testState := ts1, executed := ls.executed ++ [t.name] }
  match t.f with
  | .ok => .ok ls1
  | .fail _ =>
    .ok { ls1 with failureCount := ls1.failureCount + 1,
                   failuresInFile := insertSet ls1.failuresInFile t.file }
  | .crash msg => .error (msg, ls1)

/-- The per-test loop of runTests over the filtered test list. -/
def runLoop : LoopState → List RTest → Except (String × LoopState) LoopState
  | ls, [] => .ok ls
  | ls, t :: rest =>
    match runOne ls t with
    | .ok ls1 => runLoop ls1 rest
    | .error e => .error e

/-- The onlyChanged filter predicate: keep a test whose file hash is not
equal to the recorded last-passed hash for its file (a missing record
keeps the test). -/
def changedFilter (ts : TestState) (t : RTest) : Bool :=
  decide (mapLookup ts.lastPassedHashes t.file ≠ some t.fileHash)

/-- Observable outcome of one runTests call: the returned exit code
(none when the run aborted with an uncaught exception), whether the pass
state file was read, the pass state written back (none when no write
happened), the names of the tests executed in order, and the message of
the uncaught exception when the run crashed. -/
structure RunResult where
  exitCode : Option Nat
  stateFileRead : Bool
  stateFileWritten : Option TestState
  executed : List String
  crashed : Option String
deriving DecidableEq, Repr

/-- The runTests function. With no tests defined it returns 0 before the
state file is read. Otherwise it reads and validates the state file,
applies the onlyChanged filter, and returns 0 before writing when the
filtered list is empty. Otherwise it runs the loop; a crash aborts with
no write, while a completed loop retracts the speculative pass hash of
every file that had a failure, writes the state file, and returns 0 on
no failures, else 1. -/
def runTests (tests : List RTest) (onlyChanged : Bool)
    (stored : Option TestState) : RunResult :=
  if tests = [] then ⟨some 0, false, none, [], none⟩
  else
    let ts0 := loadTestState stored
    let tests1 := if onlyChanged then tests.filter (changedFilter ts0) else tests
    if tests1 = [] then ⟨some 0, true, none, [], none⟩
    else
      match runLoop ⟨ts0, 0, [], []⟩ tests1 with
      | .error (msg, ls) => ⟨none, true, none, ls.executed, some msg⟩
      | .ok ls =>
        ⟨some (if ls.failureCount = 0 then 0 else 1), true,
         some ⟨ls.testState.version,
               List.foldl mapErase ls.testState.lastPassedHashes ls.failuresInFile⟩,
         ls.executed, none⟩

theorem firstOccur_le_length (p : List Char) :
    ∀ (b : List Char) (k : Nat), firstOccur p b = some k → k ≤ b.length := by
  intro b
  induction b with
  | nil =>
    intro k h
    by_cases hp : p = [] <;> simp [firstOccur, hp] at h
    omega
  | cons c rest ih =>
    intro k h
    by_cases hpre : p.isPrefixOf (c :: rest) = true <;>
      simp only [firstOccur, hpre, if_true, if_false] at h
    · simp at h
      omega
    · simp only [Bool.false_eq_true, if_false] at h
      cases hfo : firstOccur p rest with
      | none => rw [hfo] at h; simp at h
      | some k0 =>
        rw [hfo] at h
        simp at h
        have := ih k0 hfo
        simp [List.length]
        omega

theorem tryMatch_ended (s : MatcherState) :
    (Matcher.tryMatch s).1.ended = s.ended := by
  unfold Matcher.tryMatch
  split
  · rfl
  · split
    · rfl
    · split <;> rfl

theorem mapLookup_mapErase (m : List (String × String)) (k x : String) :
    mapLookup (mapErase m k) x = if x = k then none else mapLookup m x := by
  induction m with
  | nil => simp [mapErase, mapLookup]
  | cons p rest ih =>
    obtain ⟨k1, v1⟩ := p
    by_cases h1 : k1 = k
    · subst h1
      rw [show mapErase ((k1, v1) :: rest) k1 = mapErase rest k1 by
            simp [mapErase]]
      rw [ih]
      by_cases hx : x = k1
      · simp [hx]
      · simp [hx, mapLookup]
    · rw [show mapErase ((k1, v1) :: rest) k = (k1, v1) :: mapErase rest k by
            simp [mapErase, h1]]
      by_cases hx : x = k1
      · subst hx
        have hxk : ¬ x = k := fun hc => h1 hc
        simp [mapLookup, hxk]
      · simp [mapLookup, hx, ih]

theorem mapLookup_foldl_mapErase_none (fs : List String) :
    ∀ (m : List (String × String)) (x : String), mapLookup m x = none →
      mapLookup (List.foldl mapErase m fs) x = none := by
  induction fs with
  | nil => intro m x h; simpa using h
  | cons f rest ih =>
    intro m x h
    simp only [List.foldl]
    apply ih
    rw [mapLookup_mapErase]
    split <;> simp [h]

theorem mapLookup_foldl_mapErase_mem (fs : List String) :
    ∀ (m : List (String × String)) (x : String), x ∈ fs →
      mapLookup (List.foldl mapErase m fs) x = none := by
  induction fs with
  | nil => intro m x h; cases h
  | cons f rest ih =>
    intro m x h
    simp only [List.foldl]
    rcases List.mem_cons.mp h with h1 | h2
    · subst h1
      apply mapLookup_foldl_mapErase_none
      rw [mapLookup_mapErase]
      simp
    · exact ih _ _ h2

theorem mem_insertSet (l : List String) (a x : String) :
    x ∈ insertSet l a ↔ x ∈ l ∨ x = a := by
  unfold insertSet
  split
  · constructor
    · exact Or.inl
    · rintro (hx | rfl)
      · exact hx
      · assumption
  · simp [List.mem_append]

theorem runOne_ok (ls : LoopState) (t : RTest) (ls1 : LoopState)
    (h : runOne ls t = .ok ls1) :
    ls1.executed = ls.executed ++ [t.name] ∧
    ls1.testState.version = ls.testState.version ∧
    ls.failureCount ≤ ls1.failureCount ∧
    (∀ x ∈ ls.failuresInFile, x ∈ ls1.failuresInFile) ∧
    (∀ fl, t.f = .fail fl → 0 < ls1.failureCount ∧ t.file ∈ ls1.failuresInFile) := by
  unfold runOne at h
  cases htf : t.f <;> rw [htf] at h <;> simp at h
  · subst h
    refine ⟨rfl, rfl, le_refl _, fun x hx => hx, fun fl hfl => ?_⟩
    simp at hfl
  · subst h
    refine ⟨rfl, rfl, Nat.le_succ _, fun x hx => ?_, fun fl hfl => ?_⟩
    · exact (mem_insertSet _ _ _).mpr (Or.inl hx)
    · exact ⟨Nat.succ_pos _, (mem_insertSet _ _ _).mpr (Or.inr rfl)⟩

theorem runOne_is_ok (ls : LoopState) (t : RTest)
    (h : ∀ m, t.f ≠ .crash m) : ∃ ls1, runOne ls t = .ok ls1 := by
  unfold runOne
  cases htf : t.f
  · exact ⟨_, rfl⟩
  · exact ⟨_, rfl⟩
  · exact absurd htf (h _)

theorem runOne_crash (ls : LoopState) (t : RTest) (msg : String)
    (h : t.f = .crash msg) :
    ∃ ls1, runOne ls t = .error (msg, ls1) ∧
      ls1.executed = ls.executed ++ [t.name] := by
  unfold runOne
  rw [h]
  exact ⟨_, rfl, rfl⟩

theorem runLoop_ok (ts : List RTest) :
    ∀ (ls ls1 : LoopState), runLoop ls ts = .ok ls1 →
      ls1.executed = ls.executed ++ ts.map (fun t => t.name) ∧
      ls1.testState.version = ls.testState.version ∧
      ls.failureCount ≤ ls1.failureCount ∧
      (∀ x ∈ ls.failuresInFile, x ∈ ls1.failuresInFile) ∧
      (∀ t ∈ ts, ∀ fl, t.f = .fail fl →
        0 < ls1.failureCount ∧ t.file ∈ ls1.failuresInFile) := by
  induction ts with
  | nil =>
    intro ls ls1 h
    simp only [runLoop] at h
    cases h
    simp
  | cons t rest ih =>
    intro ls ls1 h
    simp only [runLoop] at h
    cases ho : runOne ls t with
    | error e => rw [ho] at h; cases h
    | ok ls2 =>
      rw [ho] at h
      obtain ⟨hex2, hv2, hc2, hm2, hf2⟩ := runOne_ok ls t ls2 ho
      obtain ⟨hex, hv, hc, hm, hf⟩ := ih ls2 ls1 h
      refine ⟨by simp [hex, hex2], by rw [hv, hv2], le_trans hc2 hc,
              fun x hx => hm x (hm2 x hx), fun u hu fl hfl => ?_⟩
      rcases List.mem_cons.mp hu with h1 | h2
      · subst h1
        obtain ⟨hpos, hmem⟩ := hf2 fl hfl
        exact ⟨lt_of_lt_of_le hpos hc, hm _ hmem⟩
      · exact hf u h2 fl hfl

theorem runLoop_no_crash (ts : List RTest) :
    ∀ (ls : LoopState), (∀ t ∈ ts, ∀ m, t.f ≠ .crash m) →
      ∃ ls1, runLoop ls ts = .ok ls1 := by
  induction ts with
  | nil => intro ls _; exact ⟨ls, rfl⟩
  | cons t rest ih =>
    intro ls h
    obtain ⟨ls2, ho⟩ := runOne_is_ok ls t (h t (List.mem_cons_self t rest))
    obtain ⟨ls1, hl⟩ := ih ls2 (fun u hu => h u (List.mem_cons_of_mem t hu))
    refine ⟨ls1, ?_⟩
    simp only [runLoop, ho, hl]

theorem runLoop_crash (ts1 : List RTest) :
    ∀ (ls : LoopState) (t : RTest) (ts2 : List RTest) (msg : String),
      t.f = .crash msg → (∀ u ∈ ts1, ∀ m, u.f ≠ .crash m) →
      ∃ lsE, runLoop ls (ts1 ++ t :: ts2) = .error (msg, lsE) ∧
        lsE.executed = ls.executed ++ ts1.map (fun u => u.name) ++ [t.name] := by
  induction ts1 with
  | nil =>
    intro ls t ts2 msg ht _
    obtain ⟨ls1, ho, hex⟩ := runOne_crash ls t msg ht
    refine ⟨ls1, ?_, by simpa using hex⟩
    simp only [List.nil_append, runLoop, ho]
  | cons u rest ih =>
    intro ls t ts2 msg ht hnc
    obtain ⟨ls2, ho⟩ := runOne_is_ok ls u (hnc u (List.mem_cons_self u rest))
    obtain ⟨hex2, _, _, _, _⟩ := runOne_ok ls u ls2 ho
    obtain ⟨lsE, hl, hex⟩ :=
      ih ls2 t ts2 msg ht (fun w hw => hnc w (List.mem_cons_of_mem u hw))
    refine ⟨lsE, ?_, ?_⟩
    · simp only [List.cons_append, runLoop, ho]
      exact hl
    · rw [hex, hex2]
      simp

theorem loadTestState_version (stored : Option TestState) :
    (loadTestState stored).version = 1 := by
  unfold loadTestState
  cases stored with
  | none => rfl
  | some ts =>
    by_cases h : ts.version = 1 <;> simp [h]

theorem loadTestState_valid (ts : TestState) (h : ts.version = 1) :
    loadTestState (some ts) = ts := by
  simp [loadTestState, h]

/-- C1: for every Matcher whose buffer contains the pattern with
earliest occurrence at offset k greater than 0, calling match with
strict true fails the request with reason junk-before (the first
resolution delivered to the request future is a junk-before
TestFailure), while calling match with strict false returns the match
and removes the buffer prefix through the end of the occurrence, leaving
the rest of the buffer as the new buffer. -/
theorem claimC1 (s : MatcherState) (pattern : List Char) (k : Nat)
    (hpend : s.pending = none)
    (hocc : firstOccur pattern s.buf = some k) (hk : 0 < k) :
    (∃ s1 rs, Matcher.matchReq s pattern true = .ok (s1, rs) ∧
      firstResolution rs = some (.thr ⟨"junk-before", .noDetails⟩)) ∧
    Matcher.matchReq s pattern false =
      .ok ({ s with buf := s.buf.drop (k + pattern.length) }, [.ret pattern]) := by
  obtain ⟨buf, output, ended, pending⟩ := s
  simp only at hpend hocc ⊢
  subst hpend
  have hk0 : k ≠ 0 := Nat.pos_iff_ne_zero.mp hk
  constructor
  · refine ⟨⟨buf.drop (k + pattern.length), output, ended, none⟩,
      [.thr ⟨"junk-before", .noDetails⟩, .ret pattern], ?_, rfl⟩
    simp [Matcher.matchReq, Matcher.tryMatch, hocc, hk0]
  · simp [Matcher.matchReq, Matcher.tryMatch, hocc, hk0]

theorem claimC1_witness :
    (∃ s1 rs,
      Matcher.matchReq ⟨['x', 'a', 'b'], ['x', 'a', 'b'], false, none⟩
        ['a', 'b'] true = .ok (s1, rs) ∧
      firstResolution rs = some (.thr ⟨"junk-before", .noDetails⟩)) ∧
    Matcher.matchReq ⟨['x', 'a', 'b'], ['x', 'a', 'b'], false, none⟩
      ['a', 'b'] false =
      .ok (⟨[], ['x', 'a', 'b'], false, none⟩, [.ret ['a', 'b']]) := by
  have h := claimC1 ⟨['x', 'a', 'b'], ['x', 'a', 'b'], false, none⟩
    ['a', 'b'] 1 rfl rfl (by decide)
  exact ⟨h.1, h.2⟩

/-- C2: the claim states that after waitSecs calls accumulating s extra
seconds, the next timing-sensitive call uses an effective timeout of
baseTimeout plus s and resets the accumulator, and in particular that
the exit wait performed inside expectEnd is bounded by baseTimeout plus
s. The code contradicts the last part: expectEnd computes its timeout
into an unused local and zeroes extraTime before calling expectExit, so
the inner exit wait is armed with baseTimeout alone. This theorem
evaluates the model at the failing input: after waitSecs 5 on a fresh
Run, match, matchErr and a direct expectExit each use baseTimeout plus 5
and reset the accumulator, but the exit wait inside expectEnd uses
baseTimeout, which differs from baseTimeout plus 5. -/
theorem claimC2 :
    (Run.matchTimeout (Run.waitSecs Run.init 5)).2 = Run.init.baseTimeout + 5 ∧
    (Run.matchTimeout (Run.waitSecs Run.init 5)).1.extraTime = 0 ∧
    (Run.matchErrTimeout (Run.waitSecs Run.init 5)).2 = Run.init.baseTimeout + 5 ∧
    (Run.expectExitTimeout (Run.waitSecs Run.init 5)).2 = Run.init.baseTimeout + 5 ∧
    (Run.expectEndExitTimeout (Run.waitSecs Run.init 5)).2 = Run.init.baseTimeout ∧
    Run.init.baseTimeout = 1 ∧
    (Run.expectEndExitTimeout (Run.waitSecs Run.init 5)).2 ≠
      Run.init.baseTimeout + 5 := by
  decide

/-- C3: once the exit status is known, expectExit fails with
spawn-failure exactly when the process never actually started (status
null), and fails with wrong-exit-code, carrying expected and actual,
precisely when an expected code is given and differs from the code
component of the status; the outcome never depends on the signal
component. -/
theorem claimC3 (c : Option Int) (sig sig2 : Option String) (code : Option Int) :
    Run.expectExitCheck .failed code = some ⟨"spawn-failure", .noDetails⟩ ∧
    (∀ k, code = some k →
      (Run.expectExitCheck (.exited c sig) code =
          some ⟨"wrong-exit-code", .exitDetails k (.exited c sig)⟩ ↔
        c ≠ some k)) ∧
    (code = none → Run.expectExitCheck (.exited c sig) code = none) ∧
    (Run.expectExitCheck (.exited c sig) code).map (fun f => f.reason) =
      (Run.expectExitCheck (.exited c sig2) code).map (fun f => f.reason) := by
  refine ⟨?_, ?_, ?_, ?_⟩
  · cases code <;> rfl
  · intro k hk
    subst hk
    by_cases hc : c = some k
    · simp [Run.expectExitCheck, hc]
    · simp [Run.expectExitCheck, hc]
  · intro hc
    subst hc
    rfl
  · cases code with
    | none => rfl
    | some k =>
      by_cases hc : c = some k <;> simp [Run.expectExitCheck, hc]

theorem claimC3_witness :
    Run.expectExitCheck .failed (some 0) = some ⟨"spawn-failure", .noDetails⟩ ∧
    Run.expectExitCheck (.exited (some 3) (some "SIGTERM")) (some 0) =
      some ⟨"wrong-exit-code",
        .exitDetails 0 (.exited (some 3) (some "SIGTERM"))⟩ := by
  have h := claimC3 (some 3) (some "SIGTERM") none (some 0)
  exact ⟨h.1, (h.2.1 0 rfl).mpr (by decide)⟩

/-- C6: the exit status transitions from unset to a terminal value
exactly once: the first close notification sets the terminal state, ends
both Matchers, nulls out the waiter list and resolves every registered
exit waiter exactly once, and a second close notification leaves the
state unchanged and resolves nothing. -/
theorem claimC6 (s : RunState) (fs : List Nat) (code : Option Int)
    (sig : Option String)
    (hst : s.exitStatus = .unset) (hfs : s.exitFutures = some fs) :
    (Run.onCloseEvent s code sig).1.exitStatus = .exited code sig ∧
    (Run.onCloseEvent s code sig).2.resolvedWaiters = fs ∧
    (Run.onCloseEvent s code sig).1.stdoutMatcher.ended = true ∧
    (Run.onCloseEvent s code sig).1.stderrMatcher.ended = true ∧
    (Run.onCloseEvent s code sig).1.exitFutures = none ∧
    (∀ code2 sig2,
      Run.onCloseEvent (Run.onCloseEvent s code sig).1 code2 sig2 =
        ((Run.onCloseEvent s code sig).1, ExitEffect.empty)) := by
  obtain ⟨args, started, bt, et, mo, me, ex, efs⟩ := s
  simp only at hst hfs
  subst hst
  subst hfs
  have hoc : Run.onCloseEvent
      ⟨args, started, bt, et, mo, me, .unset, some fs⟩ code sig =
      (⟨args, started, bt, et, (Matcher.endCall mo).1, (Matcher.endCall me).1,
        .exited code sig, none⟩,
       ⟨fs, (Matcher.endCall mo).2, (Matcher.endCall me).2⟩) := by
    unfold Run.onCloseEvent Run.exitedCore
    simp [ExitEffect.empty]
  rw [hoc]
  refine ⟨rfl, rfl, ?_, ?_, rfl, ?_⟩
  · show (Matcher.endCall mo).1.ended = true
    unfold Matcher.endCall
    rw [tryMatch_ended]
  · show (Matcher.endCall me).1.ended = true
    unfold Matcher.endCall
    rw [tryMatch_ended]
  · intro code2 sig2
    unfold Run.onCloseEvent
    simp [ExitEffect.empty]

theorem claimC6_witness :
    (Run.onCloseEvent
      ⟨[], false, 1, 0, Matcher.init, Matcher.init, .unset, some [7]⟩
      (some 0) none).1.exitStatus = .exited (some 0) none ∧
    (Run.onCloseEvent
      ⟨[], false, 1, 0, Matcher.init, Matcher.init, .unset, some [7]⟩
      (some 0) none).2.resolvedWaiters = [7] := by
  have h := claimC6
    ⟨[], false, 1, 0, Matcher.init, Matcher.init, .unset, some [7]⟩
    [7] (some 0) none rfl rfl
  exact ⟨h.1, h.2.1⟩

/-- C7: calling match on a Matcher that already has a pending
unresolved request raises a fatal programming error (a plain Error,
modelled by the error branch of Except, distinct from the TestFailure
taxonomy delivered through Resolution events). -/
theorem claimC7 (s : MatcherState) (pattern : List Char) (strict : Bool)
    (h : s.pending.isSome = true) :
    Matcher.matchReq s pattern strict =
      .error "already have a match pending?" := by
  simp [Matcher.matchReq, h]

theorem claimC7_witness :
    Matcher.matchReq ⟨[], [], false, some ⟨['a'], false⟩⟩ ['b'] true =
      .error "already have a match pending?" := by
  exact claimC7 ⟨[], [], false, some ⟨['a'], false⟩⟩ ['b'] true rfl

/-- C9: when a strict match request is pending and the buffer contains
the pattern with earliest occurrence at offset k greater than 0, the
resolution attempt fails the request with junk-before and nonetheless
consumes the buffer through the end of the occurrence: the error path
mutates the buffer, strictly shrinking it, rather than leaving it
unchanged. -/
theorem claimC9 (s : MatcherState) (pattern : List Char) (k : Nat)
    (hpend : s.pending = some ⟨pattern, true⟩)
    (hocc : firstOccur pattern s.buf = some k) (hk : 0 < k) :
    ∃ s1 rs, Matcher.tryMatch s = (s1, rs) ∧
      firstResolution rs = some (.thr ⟨"junk-before", .noDetails⟩) ∧
      s1.buf = s.buf.drop (k + pattern.length) ∧
      s1.buf.length < s.buf.length := by
  obtain ⟨buf, output, ended, pending⟩ := s
  simp only at hpend hocc ⊢
  subst hpend
  have hk0 : k ≠ 0 := Nat.pos_iff_ne_zero.mp hk
  have ht : Matcher.tryMatch ⟨buf, output, ended, some ⟨pattern, true⟩⟩ =
      (⟨buf.drop (k + pattern.length), output, ended, none⟩,
       [.thr ⟨"junk-before", .noDetails⟩, .ret pattern]) := by
    simp [Matcher.tryMatch, hocc, hk0]
  refine ⟨_, _, ht, rfl, rfl, ?_⟩
  have hle := firstOccur_le_length pattern buf k hocc
  simp only [List.length_drop]
  omega

theorem claimC9_witness :
    (Matcher.tryMatch ⟨['x', 'a'], ['x', 'a'], false, some ⟨['a'], true⟩⟩).1.buf
      = [] ∧
    firstResolution
      (Matcher.tryMatch ⟨['x', 'a'], ['x', 'a'], false, some ⟨['a'], true⟩⟩).2 =
      some (.thr ⟨"junk-before", .noDetails⟩) := by
  obtain ⟨s1, rs, heq, hfirst, hbuf, _⟩ :=
    claimC9 ⟨['x', 'a'], ['x', 'a'], false, some ⟨['a'], true⟩⟩ ['a'] 1
      rfl rfl (by decide)
  rw [heq]
  exact ⟨hbuf, hfirst⟩

/-- C8 counterexample: the claim states that every define call made
while no file is actively being loaded fails. After discovery has
completed, allTests is an initialized list while fileBeingLoaded is
null, and a define call in that state succeeds, registering a test with
no file tag; so the claim as stated is false. -/
theorem claimC8_counterexample :
    (⟨some [], none, none⟩ : RegistryState).fileBeingLoaded = none ∧
    define ⟨some [], none, none⟩ "late" .ok =
      .ok ⟨some [⟨"late", none, none, .ok⟩], none, none⟩ :=
  ⟨rfl, rfl⟩

/-- C8 amended: a define call made before discovery has initialized the
registry fails with a fatal TypeError; a define call made during an
active load registers a Test tagged with the file currently being loaded
and that file content hash. -/
theorem claimC8 (st : RegistryState) (name : String) (f : TestOutcome) :
    (st.allTests = none →
      define st name f = .error "TypeError: cannot push onto null allTests") ∧
    (∀ ts file hsh, st.allTests = some ts → st.fileBeingLoaded = some file →
      st.fileBeingLoadedHash = some hsh →
      define st name f =
        .ok { st with allTests := some (ts ++ [⟨name, some file, some hsh, f⟩]) }) := by
  constructor
  · intro h
    simp [define, h]
  · intro ts file hsh hts hf hh
    simp [define, hts, hf, hh]

theorem claimC8_witness :
    define ⟨none, none, none⟩ "t" .ok =
      .error "TypeError: cannot push onto null allTests" ∧
    define ⟨some [], some "file1", some "hash1"⟩ "t" .ok =
      .ok ⟨some [⟨"t", some "file1", some "hash1", .ok⟩],
           some "file1", some "hash1"⟩ := by
  have h1 := claimC8 ⟨none, none, none⟩ "t" .ok
  have h2 := claimC8 ⟨some [], some "file1", some "hash1"⟩ "t" .ok
  exact ⟨h1.1 rfl, h2.2 [] "file1" "hash1" rfl rfl rfl⟩

/-- C4: for every run (with no crashing test) containing two tests from
one source file where one passes and the other raises a TestFailure,
the persisted pass state written at the end of the run has no
lastPassedHashes entry for that file, so a subsequent run over the same
tests with onlyChanged set re-executes both tests of that file. -/
theorem claimC4 (tests : List RTest) (stored : Option TestState)
    (t1 t2 : RTest) (fl : TestFailure)
    (h1 : t1 ∈ tests) (h2 : t2 ∈ tests) (hfile : t2.file = t1.file)
    (_hok : t1.f = .ok) (hfl : t2.f = .fail fl)
    (hnc : ∀ t ∈ tests, ∀ m, t.f ≠ .crash m) :
    ∃ ts, (runTests tests false stored).stateFileWritten = some ts ∧
      mapLookup ts.lastPassedHashes t1.file = none ∧
      t1.name ∈ (runTests tests true (some ts)).executed ∧
      t2.name ∈ (runTests tests true (some ts)).executed := by
  have htne : tests ≠ [] := List.ne_nil_of_mem h1
  obtain ⟨ls, hloop⟩ :=
    runLoop_no_crash tests ⟨loadTestState stored, 0, [], []⟩ hnc
  obtain ⟨hex, hver, _, _, hfail⟩ := runLoop_ok tests _ _ hloop
  have hmem : t2.file ∈ ls.failuresInFile := (hfail t2 h2 fl hfl).2
  have hmem1 : t1.file ∈ ls.failuresInFile := hfile ▸ hmem
  have hrun1 : runTests tests false stored =
      ⟨some (if ls.failureCount = 0 then 0 else 1), true,
       some ⟨ls.testState.version,
             List.foldl mapErase ls.testState.lastPassedHashes
               ls.failuresInFile⟩,
       ls.executed, none⟩ := by
    unfold runTests
    rw [if_neg htne]
    simp only [Bool.false_eq_true, if_false, if_neg htne, hloop]
  set wts : TestState :=
    ⟨ls.testState.version,
     List.foldl mapErase ls.testState.lastPassedHashes ls.failuresInFile⟩
    with hwts
  have hlook : mapLookup wts.lastPassedHashes t1.file = none :=
    mapLookup_foldl_mapErase_mem ls.failuresInFile _ _ hmem1
  have hver1 : wts.version = 1 := by
    rw [hwts]
    show ls.testState.version = 1
    rw [hver]
    exact loadTestState_version stored
  have hload2 : loadTestState (some wts) = wts := loadTestState_valid wts hver1
  have hcf1 : changedFilter wts t1 = true := by
    simp [changedFilter, hlook]
  have hcf2 : changedFilter wts t2 = true := by
    simp [changedFilter, hfile, hlook]
  have hm1 : t1 ∈ tests.filter (changedFilter wts) :=
    List.mem_filter.mpr ⟨h1, hcf1⟩
  have hm2 : t2 ∈ tests.filter (changedFilter wts) :=
    List.mem_filter.mpr ⟨h2, hcf2⟩
  have hfne : tests.filter (changedFilter wts) ≠ [] := List.ne_nil_of_mem hm1
  obtain ⟨ls2, hloop2⟩ :=
    runLoop_no_crash (tests.filter (changedFilter wts))
      ⟨wts, 0, [], []⟩
      (fun t ht => hnc t (List.mem_of_mem_filter ht))
  obtain ⟨hex2, _, _, _, _⟩ := runLoop_ok _ _ _ hloop2
  have hrun2 : runTests tests true (some wts) =
      ⟨some (if ls2.failureCount = 0 then 0 else 1), true,
       some ⟨ls2.testState.version,
             List.foldl mapErase ls2.testState.lastPassedHashes
               ls2.failuresInFile⟩,
       ls2.executed, none⟩ := by
    unfold runTests
    rw [if_neg htne]
    simp only [if_true, hload2, if_neg hfne, hloop2]
  refine ⟨wts, ?_, hlook, ?_, ?_⟩
  · rw [hrun1]
  · rw [hrun2]
    show t1.name ∈ ls2.executed
    rw [hex2]
    simp only [List.nil_append]
    exact List.mem_map_of_mem _ hm1
  · rw [hrun2]
    show t2.name ∈ ls2.executed
    rw [hex2]
    simp only [List.nil_append]
    exact List.mem_map_of_mem _ hm2

theorem claimC4_witness :
    "a" ∈ (runTests
      [⟨"a", "f", "h", .ok⟩, ⟨"b", "f", "h", .fail ⟨"no-match", .noDetails⟩⟩]
      true (some ⟨1, []⟩)).executed ∧
    "b" ∈ (runTests
      [⟨"a", "f", "h", .ok⟩, ⟨"b", "f", "h", .fail ⟨"no-match", .noDetails⟩⟩]
      true (some ⟨1, []⟩)).executed := by
  obtain ⟨ts, hw, hl, hmem1, hmem2⟩ := claimC4
    [⟨"a", "f", "h", .ok⟩, ⟨"b", "f", "h", .fail ⟨"no-match", .noDetails⟩⟩]
    none
    ⟨"a", "f", "h", .ok⟩ ⟨"b", "f", "h", .fail ⟨"no-match", .noDetails⟩⟩
    ⟨"no-match", .noDetails⟩
    (List.mem_cons_self _ _)
    (List.mem_cons_of_mem _ (List.mem_cons_self _ _))
    rfl rfl rfl
    (by
      intro t ht m hcm
      rcases List.mem_cons.mp ht with h | h
      · subst h; cases hcm
      · rcases List.mem_cons.mp h with h3 | h3
        · subst h3; cases hcm
        · cases h3)
  have hcomp : (runTests
      [⟨"a", "f", "h", .ok⟩, ⟨"b", "f", "h", .fail ⟨"no-match", .noDetails⟩⟩]
      false none).stateFileWritten = some ⟨1, []⟩ := by rfl
  rw [hcomp] at hw
  have hts : (⟨1, []⟩ : TestState) = ts := Option.some.inj hw
  subst hts
  exact ⟨hmem1, hmem2⟩

/-- C5: a test body whose exception is a TestFailure is caught, counted
and reported, and the remaining tests still run (the run completes with
all test names executed and exit code 1); a test body whose exception is
not a TestFailure propagates out of the runner unrecovered, aborting
the run after that test with no pass state written and no exit code. -/
theorem claimC5 (tests1 tests2 : List RTest) (t : RTest)
    (stored : Option TestState) (fl : TestFailure) (msg : String) :
    (t.f = .fail fl → (∀ u ∈ tests1 ++ tests2, ∀ m, u.f ≠ .crash m) →
      (runTests (tests1 ++ t :: tests2) false stored).crashed = none ∧
      (runTests (tests1 ++ t :: tests2) false stored).executed =
        (tests1 ++ t :: tests2).map (fun u => u.name) ∧
      (runTests (tests1 ++ t :: tests2) false stored).exitCode = some 1) ∧
    (t.f = .crash msg → (∀ u ∈ tests1, ∀ m, u.f ≠ .crash m) →
      (runTests (tests1 ++ t :: tests2) false stored).crashed = some msg ∧
      (runTests (tests1 ++ t :: tests2) false stored).executed =
        tests1.map (fun u => u.name) ++ [t.name] ∧
      (runTests (tests1 ++ t :: tests2) false stored).stateFileWritten = none ∧
      (runTests (tests1 ++ t :: tests2) false stored).exitCode = none) := by
  have htmem : t ∈ tests1 ++ t :: tests2 :=
    List.mem_append.mpr (Or.inr (List.mem_cons_self _ _))
  have htne : tests1 ++ t :: tests2 ≠ [] := List.ne_nil_of_mem htmem
  constructor
  · intro hfl hnc
    have hnc2 : ∀ u ∈ tests1 ++ t :: tests2, ∀ m, u.f ≠ .crash m := by
      intro u hu m
      rcases List.mem_append.mp hu with h | h
      · exact hnc u (List.mem_append.mpr (Or.inl h)) m
      · rcases List.mem_cons.mp h with h3 | h3
        · subst h3
          rw [hfl]
          intro hcm
          cases hcm
        · exact hnc u (List.mem_append.mpr (Or.inr h3)) m
    obtain ⟨ls, hloop⟩ := runLoop_no_crash (tests1 ++ t :: tests2)
      ⟨loadTestState stored, 0, [], []⟩ hnc2
    obtain ⟨hex, _, _, _, hfail⟩ := runLoop_ok _ _ _ hloop
    have hpos : 0 < ls.failureCount := (hfail t htmem fl hfl).1
    have hrun : runTests (tests1 ++ t :: tests2) false stored =
        ⟨some (if ls.failureCount = 0 then 0 else 1), true,
         some ⟨ls.testState.version,
               List.foldl mapErase ls.testState.lastPassedHashes
                 ls.failuresInFile⟩,
         ls.executed, none⟩ := by
      unfold runTests
      rw [if_neg htne]
      simp only [Bool.false_eq_true, if_false, if_neg htne, hloop]
    rw [hrun]
    refine ⟨rfl, ?_, ?_⟩
    · show ls.executed = _
      rw [hex]
      simp
    · show some (if ls.failureCount = 0 then 0 else 1) = some 1
      rw [if_neg (Nat.pos_iff_ne_zero.mp hpos)]
  · intro hcr hnc
    obtain ⟨lsE, hloop, hexE⟩ := runLoop_crash tests1
      ⟨loadTestState stored, 0, [], []⟩ t tests2 msg hcr hnc
    have hrun : runTests (tests1 ++ t :: tests2) false stored =
        ⟨none, true, none, lsE.executed, some msg⟩ := by
      unfold runTests
      rw [if_neg htne]
      simp only [Bool.false_eq_true, if_false, if_neg htne, hloop]
    rw [hrun]
    refine ⟨rfl, ?_, rfl, rfl⟩
    show lsE.executed = _
    rw [hexE]
    simp

theorem claimC5_witness :
    (runTests [⟨"a", "f", "h", .fail ⟨"no-match", .noDetails⟩⟩,
               ⟨"b", "g", "k", .ok⟩] false none).crashed = none ∧
    (runTests [⟨"a", "f", "h", .fail ⟨"no-match", .noDetails⟩⟩,
               ⟨"b", "g", "k", .ok⟩] false none).executed = ["a", "b"] ∧
    (runTests [⟨"a", "f", "h", .crash "boom"⟩,
               ⟨"b", "g", "k", .ok⟩] false none).crashed = some "boom" ∧
    (runTests [⟨"a", "f", "h", .crash "boom"⟩,
               ⟨"b", "g", "k", .ok⟩] false none).executed = ["a"] ∧
    (runTests [⟨"a", "f", "h", .crash "boom"⟩,
               ⟨"b", "g", "k", .ok⟩] false none).stateFileWritten = none := by
  have hfailpart := (claimC5 [] [⟨"b", "g", "k", .ok⟩]
    ⟨"a", "f", "h", .fail ⟨"no-match", .noDetails⟩⟩ none
    ⟨"no-match", .noDetails⟩ "unused").1 rfl
    (by
      intro u hu m hcm
      rcases List.mem_cons.mp hu with h | h
      · subst h; cases hcm
      · cases h)
  have hcrashpart := (claimC5 [] [⟨"b", "g", "k", .ok⟩]
    ⟨"a", "f", "h", .crash "boom"⟩ none
    ⟨"no-match", .noDetails⟩ "boom").2 rfl
    (by intro u hu m hcm; cases hu)
  exact ⟨hfailpart.1, hfailpart.2.1, hcrashpart.1, hcrashpart.2.1,
    hcrashpart.2.2.1⟩

/-- C10: runTests returns success without writing the pass state file
whenever it executes zero tests: with no tests defined it returns 0
before the file is even read; when onlyChanged filtering empties the
list it returns 0 after reading but before writing; and in general the
pass state file is written only on runs that executed at least one
test. -/
theorem claimC10 (tests : List RTest) (onlyChanged : Bool)
    (stored : Option TestState) :
    runTests [] onlyChanged stored = ⟨some 0, false, none, [], none⟩ ∧
    (tests ≠ [] → tests.filter (changedFilter (loadTestState stored)) = [] →
      runTests tests true stored = ⟨some 0, true, none, [], none⟩) ∧
    ((runTests tests onlyChanged stored).stateFileWritten ≠ none →
      (runTests tests onlyChanged stored).executed ≠ []) := by
  refine ⟨?_, ?_, ?_⟩
  · unfold runTests
    rw [if_pos rfl]
  · intro htne hfe
    unfold runTests
    rw [if_neg htne]
    simp only [if_true, hfe, if_pos rfl]
  · intro hw
    unfold runTests at hw ⊢
    by_cases htne : tests = []
    · rw [if_pos htne] at hw
      exact absurd rfl hw
    · rw [if_neg htne] at hw ⊢
      set tests1 :=
        if onlyChanged then tests.filter (changedFilter (loadTestState stored))
        else tests with hts1
      by_cases hfe : tests1 = []
      · rw [if_pos hfe] at hw
        exact absurd rfl hw
      · rw [if_neg hfe] at hw ⊢
        cases hloop : runLoop ⟨loadTestState stored, 0, [], []⟩ tests1 with
        | error e =>
          rw [hloop] at hw
          obtain ⟨m, lsE⟩ := e
          exact absurd rfl hw
        | ok ls =>
          obtain ⟨hex, _, _, _, _⟩ := runLoop_ok _ _ _ hloop
          show ls.executed ≠ []
          rw [hex]
          simp only [List.nil_append, ne_eq, List.map_eq_nil_iff]
          exact hfe

theorem claimC10_witness :
    runTests [] true none = ⟨some 0, false, none, [], none⟩ ∧
    runTests [⟨"a", "f", "h", .ok⟩] true (some ⟨1, [("f", "h")]⟩) =
      ⟨some 0, true, none, [], none⟩ ∧
    (runTests [⟨"a", "f", "h", .ok⟩] false none).executed ≠ [] := by
  have h := claimC10 [⟨"a", "f", "h", .ok⟩] true none
  have h2 := claimC10 [⟨"a", "f", "h", .ok⟩] true (some ⟨1, [("f", "h")]⟩)
  have h3 := claimC10 [⟨"a", "f", "h", .ok⟩] false none
  refine ⟨h.1, h2.2.1 (by intro hc; cases hc) (by rfl), h3.2.2 ?_⟩
  intro hc
  cases hc

end Selftest
